import Mathlib

/-!
# Verification of the prattle Pratt-parser engine

A shallow embedding of the prattle crate (a configurable Pratt /
precedence-climbing parser engine) and proofs about its behavior.

Source files embedded:
* `src/precedence.rs` — `PrecedenceLevel`
* `src/node.rs` — `Node`
* `src/errors.rs` — `ParseError`
* `src/lexer.rs` — the `Lexer` trait and `LexerVec`
* `src/spec.rs` — `ParserSpec` and its registration operations
* `src/parser.rs` — `GeneralParser`: `parse`, `parse_expr`,
  `parse_sequence`, `next_binds_tighter_than`, `consume`

Rust `HashMap<Discriminant<T>, V>` is modeled as an association list keyed by
an abstract kind type `K` together with a kind projection `kind : T → K`
standing for `std::mem::discriminant`.  The registration functions only ever
insert a key that is absent, so cons-based insertion has exactly the
`HashMap` semantics.  Mutable references (`&mut self`) are modeled by
explicit state passing; handler closures receive an engine interface record
so they can re-enter the engine, and recursion is made total with a fuel
parameter (`none` = the fuel ran out, i.e. the Rust code would still be
running).
-/

namespace Prattle

/-- `src/precedence.rs`: the discrete ladder of binding powers.  The Rust
enum derives `Ord`; with explicit discriminants 0, 5, 10, …, 40 the derived
order agrees with comparison of the discriminant values. -/
inductive PrecedenceLevel where
  | Root
  | First
  | Second
  | Third
  | Fourth
  | Fifth
  | Sixth
  | Seventh
  | Eighth
deriving DecidableEq

/-- The explicit discriminant value of each `PrecedenceLevel` variant, used
for the derived `Ord` comparison (`Root = 0, First = 5, …, Eighth = 40`). -/
def PrecedenceLevel.toNat : PrecedenceLevel → Nat
  | .Root => 0
  | .First => 5
  | .Second => 10
  | .Third => 15
  | .Fourth => 20
  | .Fifth => 25
  | .Sixth => 30
  | .Seventh => 35
  | .Eighth => 40

/-- `src/node.rs`: parse-tree nodes, `Simple(token)` leaves and
`Composite{token, children}` interior nodes. -/
inductive Node (T : Type) where
  | Simple : T → Node T
  | Composite : T → List (Node T) → Node T

/-- `src/errors.rs`: the `ParseError` enum. -/
inductive ParseError (T : Type) where
  | MalformedSyntax : Node T → T → ParseError T
  | MissingRule : T → String → ParseError T
  | Incomplete : ParseError T
  | ConsumeFailed : T → T → ParseError T

/-- `src/spec.rs`: the `SpecificationError` enum. -/
inductive SpecificationError (T : Type) where
  | TokenToRuleAlreadyDefined : T → SpecificationError T

/-- `src/lexer.rs`: the `Lexer` trait, as a record of operations on a lexer
state `σ`.  `peek` takes `&self` (no state change); `next_token` takes
`&mut self` and returns a token, modeled as returning the token together
with the updated state. -/
structure LexerI (σ T : Type) where
  peek : σ → Option T
  next_token : σ → T × σ

/-- `src/lexer.rs`: `LexerVec`, a vector of tokens plus a cursor index. -/
structure LexerVec (T : Type) where
  inner : List T
  index : Nat
deriving DecidableEq

/-- `LexerVec::peek`: `Some(inner[index])` when `index < inner.len()`. -/
def LexerVec.peek {T : Type} (l : LexerVec T) : Option T :=
  if h : l.index < l.inner.length then some (l.inner.get ⟨l.index, h⟩) else none

/-- `LexerVec::next_token`: returns `inner[index]`, then increments the
index only when `index + 1 < inner.len()`.  The Rust indexing panics when
`index` is out of bounds; the engine only calls `next_token` after a
successful `peek`, and `default` stands in for the panic value. -/
def LexerVec.next_token {T : Type} [Inhabited T] (l : LexerVec T) : T × LexerVec T :=
  let t := l.inner.getD l.index default
  if l.index + 1 < l.inner.length then (t, ⟨l.inner, l.index + 1⟩) else (t, l)

/-- The `Lexer` trait implementation of `LexerVec` packaged as a `LexerI`. -/
def lexerVecI (T : Type) [Inhabited T] : LexerI (LexerVec T) T :=
  ⟨LexerVec.peek, LexerVec.next_token⟩

/-- `HashMap::get` on the association-list model of
`HashMap<Discriminant<T>, V>`. -/
def mapGet {K V : Type} [DecidableEq K] : List (K × V) → K → Option V
  | [], _ => none
  | (k2, v) :: rest, k => if k2 = k then some v else mapGet rest k

/-- `HashMap::contains_key` on the association-list model. -/
def mapContains {K V : Type} [DecidableEq K] (m : List (K × V)) (k : K) : Bool :=
  (mapGet m k).isSome

/-- `HashMap::insert` on the association-list model; the engine only ever
inserts keys that are absent, so consing agrees with `HashMap` semantics. -/
def mapInsert {K V : Type} (m : List (K × V)) (k : K) (v : V) : List (K × V) :=
  (k, v) :: m

/-- The engine interface a handler closure receives (the `&mut dyn Parser<T>`
argument): it may re-enter `parse_expr` and `consume`.  The `parse_expr`
field carries the fuel budget inside its `Option` result. -/
structure PIntf (σ T : Type) where
  parse_expr : PrecedenceLevel → σ → Option ((Except (ParseError T) (Node T)) × σ)
  consume : T → σ → (Except (ParseError T) Unit) × σ

/-- `types::NullDenotation` from `src/lib.rs`:
`fn(&mut dyn Parser<T>, T, PrecedenceLevel) -> Result<Node<T>, ParseError<T>>`. -/
abbrev NullDenot (σ T : Type) :=
  PIntf σ T → T → PrecedenceLevel → σ → Option ((Except (ParseError T) (Node T)) × σ)

/-- `types::LeftDenotation` from `src/lib.rs`:
`fn(&mut dyn Parser<T>, T, PrecedenceLevel, Node<T>) -> Result<Node<T>, ParseError<T>>`. -/
abbrev LeftDenot (σ T : Type) :=
  PIntf σ T → T → PrecedenceLevel → Node T → σ → Option ((Except (ParseError T) (Node T)) × σ)

/-- `types::NullInfo<T> = (PrecedenceLevel, NullDenotation<T>)`. -/
abbrev NullInfo (σ T : Type) := PrecedenceLevel × NullDenot σ T

/-- `types::LeftInfo<T> = (PrecedenceLevel, PrecedenceLevel, LeftDenotation<T>)`. -/
abbrev LeftInfo (σ T : Type) := PrecedenceLevel × PrecedenceLevel × LeftDenot σ T

/-- `src/spec.rs`: `ParserSpec`, the write-once pair of rule tables.  `K` is
the type of `Discriminant<T>` values. -/
structure ParserSpec (σ T K : Type) where
  null_map : List (K × NullInfo σ T)
  left_map : List (K × LeftInfo σ T)

/-- `ParserSpec::new`. -/
def ParserSpec.new {σ T K : Type} : ParserSpec σ T K := ⟨[], []⟩

/-- `ParserSpec::add_null_assoc`: register a null (prefix-position) rule,
failing with `TokenToRuleAlreadyDefined` when the kind already has one.
`kind` stands for `std::mem::discriminant`; the `&mut self` receiver is
modeled by returning the updated spec alongside the `Result`. -/
def ParserSpec.add_null_assoc {σ T K : Type} [DecidableEq K] (kind : T → K)
    (s : ParserSpec σ T K) (token : T) (bp : PrecedenceLevel) (func : NullDenot σ T) :
    (Except (SpecificationError T) Unit) × ParserSpec σ T K :=
  let disc := kind token
  if !(mapContains s.null_map disc) then
    (Except.ok (), ⟨mapInsert s.null_map disc (bp, func), s.left_map⟩)
  else
    (Except.error (.TokenToRuleAlreadyDefined token), s)

/-- `ParserSpec::add_left_assoc`: register a left (continuing-position) rule
with equal left and right binding powers. -/
def ParserSpec.add_left_assoc {σ T K : Type} [DecidableEq K] (kind : T → K)
    (s : ParserSpec σ T K) (token : T) (bp : PrecedenceLevel) (func : LeftDenot σ T) :
    (Except (SpecificationError T) Unit) × ParserSpec σ T K :=
  let disc := kind token
  if !(mapContains s.left_map disc) then
    (Except.ok (), ⟨s.null_map, mapInsert s.left_map disc (bp, bp, func)⟩)
  else
    (Except.error (.TokenToRuleAlreadyDefined token), s)

/-- `ParserSpec::add_left_right_assoc`: register a left rule with distinct
left and right binding powers. -/
def ParserSpec.add_left_right_assoc {σ T K : Type} [DecidableEq K] (kind : T → K)
    (s : ParserSpec σ T K) (token : T) (lbp rbp : PrecedenceLevel) (func : LeftDenot σ T) :
    (Except (SpecificationError T) Unit) × ParserSpec σ T K :=
  let disc := kind token
  if !(mapContains s.left_map disc) then
    (Except.ok (), ⟨s.null_map, mapInsert s.left_map disc (lbp, rbp, func)⟩)
  else
    (Except.error (.TokenToRuleAlreadyDefined token), s)

/-- `ParserSpec::add_null_associations`: bulk registration; the `?` operator
returns the first error, keeping the registrations made so far. -/
def ParserSpec.add_null_associations {σ T K : Type} [DecidableEq K] (kind : T → K)
    (s : ParserSpec σ T K) (tokens : List T) (bp : PrecedenceLevel) (func : NullDenot σ T) :
    (Except (SpecificationError T) Unit) × ParserSpec σ T K :=
  match tokens with
  | [] => (Except.ok (), s)
  | token :: rest =>
    match s.add_null_assoc kind token bp func with
    | (Except.ok _, s1) => ParserSpec.add_null_associations kind s1 rest bp func
    | (Except.error e, s1) => (Except.error e, s1)

/-- `ParserSpec::add_left_associations`: bulk registration of left rules. -/
def ParserSpec.add_left_associations {σ T K : Type} [DecidableEq K] (kind : T → K)
    (s : ParserSpec σ T K) (tokens : List T) (bp : PrecedenceLevel) (func : LeftDenot σ T) :
    (Except (SpecificationError T) Unit) × ParserSpec σ T K :=
  match tokens with
  | [] => (Except.ok (), s)
  | token :: rest =>
    match s.add_left_assoc kind token bp func with
    | (Except.ok _, s1) => ParserSpec.add_left_associations kind s1 rest bp func
    | (Except.error e, s1) => (Except.error e, s1)

/-- `ParserSpec::add_left_right_associations`: bulk registration of left
rules with distinct powers. -/
def ParserSpec.add_left_right_associations {σ T K : Type} [DecidableEq K] (kind : T → K)
    (s : ParserSpec σ T K) (tokens : List T) (lbp rbp : PrecedenceLevel) (func : LeftDenot σ T) :
    (Except (SpecificationError T) Unit) × ParserSpec σ T K :=
  match tokens with
  | [] => (Except.ok (), s)
  | token :: rest =>
    match s.add_left_right_assoc kind token lbp rbp func with
    | (Except.ok _, s1) => ParserSpec.add_left_right_associations kind s1 rest lbp rbp func
    | (Except.error e, s1) => (Except.error e, s1)

section Engine

variable {σ T K : Type} [DecidableEq T] [DecidableEq K]

/-- `GeneralParser::next_binds_tighter_than` (`src/parser.rs:201-211`):
peek the next token and test whether its left-table entry's *right* binding
power strictly exceeds `rbp`; false on end of stream or a missing entry.
The Rust method only calls `peek`, so the lexer state is unchanged — the
embedding is a pure function of the state. -/
def next_binds_tighter_than (Lx : LexerI σ T) (kind : T → K)
    (left_map : List (K × LeftInfo σ T)) (s : σ) (rbp : PrecedenceLevel) : Bool :=
  match Lx.peek s with
  | some tk =>
    match mapGet left_map (kind tk) with
    | some (_, next_rbp, _) => decide (rbp.toNat < next_rbp.toNat)
    | none => false
  | none => false

/-- `GeneralParser::consume` (`src/parser.rs:213-224`): peek; on the exact
expected token advance past it, on a different token fail `ConsumeFailed`
without advancing, on an empty stream fail `Incomplete`. -/
def consume (Lx : LexerI σ T) (end_token : T) (s : σ) : (Except (ParseError T) Unit) × σ :=
  match Lx.peek s with
  | some tk =>
    if tk = end_token then
      (Except.ok (), (Lx.next_token s).2)
    else
      (Except.error (.ConsumeFailed end_token tk), s)
  | none => (Except.error .Incomplete, s)

/-- The `while self.next_binds_tighter_than(rbp)` loop of
`GeneralParser::parse_expr` (`src/parser.rs:134-145`): advance, re-look-up
the left-table entry (failing `MissingRule{ty:"Left"}` when absent), invoke
the left denotation with the entry's *left* binding power, and repeat with
the produced node.  Handlers re-enter the engine through `intf`; `fuel`
bounds the number of iterations (`none` = still looping). -/
def parse_loop (Lx : LexerI σ T) (kind : T → K) (left_map : List (K × LeftInfo σ T))
    (intf : PIntf σ T) :
    Nat → PrecedenceLevel → Node T → σ → Option ((Except (ParseError T) (Node T)) × σ)
  | 0, _, _, _ => none
  | Nat.succ fuel, rbp, left, s =>
    if next_binds_tighter_than Lx kind left_map s rbp then
      let tk := (Lx.next_token s).1
      let s1 := (Lx.next_token s).2
      match mapGet left_map (kind tk) with
      | none => some (Except.error (.MissingRule tk "Left"), s1)
      | some (lbp, _, func) =>
        match func intf tk lbp left s1 with
        | none => none
        | some (Except.error e, s2) => some (Except.error e, s2)
        | some (Except.ok left2, s2) => parse_loop Lx kind left_map intf fuel rbp left2 s2
    else
      some (Except.ok left, s)

/-- `GeneralParser::parse_expr` (`src/parser.rs:123-150`): peek (failing
`Incomplete` on an empty stream), advance, look up the null rule for the
token's kind (failing `MissingRule{ty:"Null"}` when absent), run it to get
the initial left node, then run the continuation loop.  Handlers receive
the engine itself (`PIntf`) with one unit less fuel. -/
def parse_expr (Lx : LexerI σ T) (kind : T → K) (null_map : List (K × NullInfo σ T))
    (left_map : List (K × LeftInfo σ T)) :
    Nat → PrecedenceLevel → σ → Option ((Except (ParseError T) (Node T)) × σ)
  | 0, _, _ => none
  | Nat.succ fuel, rbp, s =>
    match Lx.peek s with
    | some tk =>
      let s1 := (Lx.next_token s).2
      let intf : PIntf σ T :=
        ⟨fun r st => parse_expr Lx kind null_map left_map fuel r st,
         fun t st => consume Lx t st⟩
      match mapGet null_map (kind tk) with
      | none => some (Except.error (.MissingRule tk "Null"), s1)
      | some (lbp, func) =>
        match func intf tk lbp s1 with
        | none => none
        | some (Except.error e, s2) => some (Except.error e, s2)
        | some (Except.ok left, s2) => parse_loop Lx kind left_map intf fuel rbp left s2
    | none => some (Except.error .Incomplete, s)

/-- `GeneralParser::parse` (`src/parser.rs:119-121`):
`parse_expr(PrecedenceLevel::Root)`. -/
def parse (Lx : LexerI σ T) (kind : T → K) (null_map : List (K × NullInfo σ T))
    (left_map : List (K × LeftInfo σ T)) (fuel : Nat) (s : σ) :
    Option ((Except (ParseError T) (Node T)) × σ) :=
  parse_expr Lx kind null_map left_map fuel PrecedenceLevel.Root s

/-- `GeneralParser::parse_sequence` (`src/parser.rs:152-199`), with the
Rust `loop`/`break`/`return` control flow rendered recursively: a `break`
or `return` produces the results of the current frame only, and the
recursive call's results are consed after the current iteration's pushes.
`pfuel` is the fuel handed to each `parse_expr` sub-parse, `fuel` bounds
the number of loop iterations. -/
def parse_sequence (Lx : LexerI σ T) (kind : T → K) (null_map : List (K × NullInfo σ T))
    (left_map : List (K × LeftInfo σ T)) (pfuel : Nat) :
    Nat → PrecedenceLevel → Option T → Option T → σ →
    Option (List (Except (ParseError T) (Node T)) × σ)
  | 0, _, _, _, _ => none
  | Nat.succ fuel, prec_level, sep, end_token, s =>
    match parse_expr Lx kind null_map left_map pfuel prec_level s with
    | none => none
    | some (Except.ok node, s1) =>
      match sep with
      | none =>
        -- no separator: push the Ok result and loop again
        match parse_sequence Lx kind null_map left_map pfuel fuel prec_level sep end_token s1 with
        | none => none
        | some (rest, s2) => some (Except.ok node :: rest, s2)
      | some sepTk =>
        match consume Lx sepTk s1 with
        | (Except.ok _, s2) =>
          -- separator consumed: push the Ok result and loop again
          match parse_sequence Lx kind null_map left_map pfuel fuel prec_level sep end_token s2 with
          | none => none
          | some (rest, s3) => some (Except.ok node :: rest, s3)
        | (Except.error (ParseError.ConsumeFailed _ found), s2) =>
          match end_token with
          | some endTk =>
            if endTk = found then
              match consume Lx found s2 with
              -- end token consumed: break, dropping the pending Ok result
              | (Except.ok _, s3) => some ([], s3)
              -- failed to consume the end token: push that error, break
              | (Except.error pe, s3) => some ([Except.error pe], s3)
            else
              -- wrong terminator: push a ConsumeFailed for the separator, break
              some ([Except.error (ParseError.ConsumeFailed sepTk found)], s2)
          | none =>
            some ([Except.error (ParseError.ConsumeFailed sepTk found)], s2)
        | (Except.error e, s2) =>
          -- consume failed with Incomplete: push it, then push the Ok result, loop again
          match parse_sequence Lx kind null_map left_map pfuel fuel prec_level sep end_token s2 with
          | none => none
          | some (rest, s3) => some (Except.error e :: Except.ok node :: rest, s3)
    | some (Except.error e, s1) =>
      match e, end_token with
      -- clean end of stream with no end token: return without pushing
      | ParseError.Incomplete, none => some ([], s1)
      -- any other failure: push it and break
      | _, _ => some ([Except.error e], s1)

end Engine

/-- A concrete token sum type in the style of the crate's examples
(`examples/token_spec.rs`, the `CToken` of `src/lib.rs`): identifiers carry
a payload, operators and punctuation are unit variants. -/
inductive Tok where
  | ident : String → Tok
  | add
  | sub
  | mul
  | div
  | mod
  | pow
  | comma
  | rparen
deriving DecidableEq

instance : Inhabited Tok := ⟨Tok.add⟩

/-- The `std::mem::discriminant` values of `Tok`: one kind per variant,
discarding the identifier payload. -/
inductive TokKind where
  | KIdent
  | KAdd
  | KSub
  | KMul
  | KDiv
  | KMod
  | KPow
  | KComma
  | KRParen
deriving DecidableEq

/-- The kind projection for `Tok` (what `discriminant(&tk)` computes). -/
def Tok.kind : Tok → TokKind
  | .ident _ => .KIdent
  | .add => .KAdd
  | .sub => .KSub
  | .mul => .KMul
  | .div => .KDiv
  | .mod => .KMod
  | .pow => .KPow
  | .comma => .KComma
  | .rparen => .KRParen

/-- The `null_node` closure of `examples/basic_spec.rs`:
`Ok(Node::Simple(token))`, consuming nothing further. -/
def null_node : NullDenot (LexerVec Tok) Tok :=
  fun _ token _ s => some (Except.ok (Node.Simple token), s)

/-- The `recurse_call` closure of `examples/basic_spec.rs`:
`Ok(Node::Composite{token, children: vec![node, parser.parse_expr(rbp)?]})`,
where `rbp` is the binding power the engine passed in. -/
def recurse_call : LeftDenot (LexerVec Tok) Tok :=
  fun p token rbp node s =>
    match p.parse_expr rbp s with
    | none => none
    | some (Except.ok right, s1) => some (Except.ok (Node.Composite token [node, right]), s1)
    | some (Except.error e, s1) => some (Except.error e, s1)

/-- The arithmetic grammar of `examples/basic_spec.rs` restricted to the
kinds the claims exercise: identifiers as null leaves at `Root`, `+`/`-`
left-associative at `First`, `*`/`/`/`%` left-associative at `Second`. -/
def basicSpec : ParserSpec (LexerVec Tok) Tok TokKind :=
  let s0 : ParserSpec (LexerVec Tok) Tok TokKind := ParserSpec.new
  let s1 := (s0.add_null_assoc Tok.kind (Tok.ident "") .Root null_node).2
  let s2 := (s1.add_left_assoc Tok.kind Tok.add .First recurse_call).2
  let s3 := (s2.add_left_assoc Tok.kind Tok.sub .First recurse_call).2
  let s4 := (s3.add_left_assoc Tok.kind Tok.mul .Second recurse_call).2
  let s5 := (s4.add_left_assoc Tok.kind Tok.div .Second recurse_call).2
  (s5.add_left_assoc Tok.kind Tok.mod .Second recurse_call).2

/-- A `^` rule registered through `add_left_right_assoc` with the *left*
power strictly above the *right* power (`Second` = discriminant 10,
`First` = discriminant 5; the `PrecedenceLevel` ladder has no rank 9, so
these are the ranks realizing "left 10 / right 9"), plus identifier
leaves. -/
def powSpecLeftHigher : ParserSpec (LexerVec Tok) Tok TokKind :=
  let s1 := (ParserSpec.new.add_null_assoc Tok.kind (Tok.ident "") .Root null_node).2
  (s1.add_left_right_assoc Tok.kind Tok.pow .Second .First recurse_call).2

/-- A `^` rule registered through `add_left_right_assoc` with the *right*
power strictly above the *left* power, plus identifier leaves. -/
def powSpecRightHigher : ParserSpec (LexerVec Tok) Tok TokKind :=
  let s1 := (ParserSpec.new.add_null_assoc Tok.kind (Tok.ident "") .Root null_node).2
  (s1.add_left_right_assoc Tok.kind Tok.pow .First .Second recurse_call).2

/-- A grammar in which every token kind has a null rule returning
`Simple(token)` and there are no left rules, built with the bulk
registration (one representative token per kind). -/
def idSpec : ParserSpec (LexerVec Tok) Tok TokKind :=
  (ParserSpec.new.add_null_associations Tok.kind
    [Tok.ident "", Tok.add, Tok.sub, Tok.mul, Tok.div, Tok.mod, Tok.pow, Tok.comma, Tok.rparen]
    .Root null_node).2

/-- C1: with `+`/`-` registered left-associative at `First` and `*`/`/`/`%`
at `Second` and identifiers as null leaves, `parse()` on
`[a, +, b, *, c]` builds `Composite(+, [a, Composite(*, [b, c])])` — the
higher-binding-power operator groups tighter.  (The final `LexerVec` index
is 4: `next_token` never moves past the last token.) -/
theorem parse_add_mul_groups_tighter :
    parse (lexerVecI Tok) Tok.kind basicSpec.null_map basicSpec.left_map 10
      ⟨[Tok.ident "a", Tok.add, Tok.ident "b", Tok.mul, Tok.ident "c"], 0⟩ =
    some (Except.ok (Node.Composite Tok.add
        [Node.Simple (Tok.ident "a"),
         Node.Composite Tok.mul [Node.Simple (Tok.ident "b"), Node.Simple (Tok.ident "c")]]),
      ⟨[Tok.ident "a", Tok.add, Tok.ident "b", Tok.mul, Tok.ident "c"], 4⟩) := by
  rfl

/-- C2 counterexample: with `^` registered via `add_left_right_assoc` with
left power `Second` (10) above right power `First` (5) — the claim's
"left 10 / right 9" — `parse()` on `[a, ^, b, ^, c]` does *not* return the
right-nested tree `Composite(^, [a, Composite(^, [b, c])])`: the engine
passes the *left* power to the handler as its recursion threshold and
compares the entry's *right* power to continue the loop, so the chain
left-nests. -/
theorem parse_pow_left_higher_not_right_nested :
    (parse (lexerVecI Tok) Tok.kind powSpecLeftHigher.null_map powSpecLeftHigher.left_map 10
      ⟨[Tok.ident "a", Tok.pow, Tok.ident "b", Tok.pow, Tok.ident "c"], 0⟩).map Prod.fst ≠
    some (Except.ok (Node.Composite Tok.pow
        [Node.Simple (Tok.ident "a"),
         Node.Composite Tok.pow [Node.Simple (Tok.ident "b"), Node.Simple (Tok.ident "c")]])) := by
  have heval :
      (parse (lexerVecI Tok) Tok.kind powSpecLeftHigher.null_map powSpecLeftHigher.left_map 10
        ⟨[Tok.ident "a", Tok.pow, Tok.ident "b", Tok.pow, Tok.ident "c"], 0⟩).map Prod.fst =
      some (Except.ok (Node.Composite Tok.pow
        [Node.Composite Tok.pow [Node.Simple (Tok.ident "a"), Node.Simple (Tok.ident "b")],
         Node.Simple (Tok.ident "c")])) := rfl
  rw [heval]
  intro h
  injection h with h1
  injection h1 with h2
  injection h2 with ht hc
  injection hc with hc1 hc2
  exact Node.noConfusion hc1

/-- C2 amended: registering `^` with left power `First` *below* right power
`Second` yields the right-nested tree on `[a, ^, b, ^, c]` — the loop-
continuation test uses the entry's right power while the handler re-parses
with the lower left power, so the recursive call absorbs the next `^`. -/
theorem parse_pow_right_higher_right_nested :
    parse (lexerVecI Tok) Tok.kind powSpecRightHigher.null_map powSpecRightHigher.left_map 10
      ⟨[Tok.ident "a", Tok.pow, Tok.ident "b", Tok.pow, Tok.ident "c"], 0⟩ =
    some (Except.ok (Node.Composite Tok.pow
        [Node.Simple (Tok.ident "a"),
         Node.Composite Tok.pow [Node.Simple (Tok.ident "b"), Node.Simple (Tok.ident "c")]]),
      ⟨[Tok.ident "a", Tok.pow, Tok.ident "b", Tok.pow, Tok.ident "c"], 4⟩) := by
  rfl

/-- C2 counterexample continued: what the left-higher registration actually
produces is the *left*-nested tree, `Composite(^, [Composite(^, [a, b]), c])`. -/
theorem parse_pow_left_higher_left_nested :
    parse (lexerVecI Tok) Tok.kind powSpecLeftHigher.null_map powSpecLeftHigher.left_map 10
      ⟨[Tok.ident "a", Tok.pow, Tok.ident "b", Tok.pow, Tok.ident "c"], 0⟩ =
    some (Except.ok (Node.Composite Tok.pow
        [Node.Composite Tok.pow [Node.Simple (Tok.ident "a"), Node.Simple (Tok.ident "b")],
         Node.Simple (Tok.ident "c")]),
      ⟨[Tok.ident "a", Tok.pow, Tok.ident "b", Tok.pow, Tok.ident "c"], 4⟩) := by
  rfl

/-- C3 counterexample: `parse_sequence(Root, sep = ',', end = ')')` on
`[a, ',', b, ')']` does *not* return `[Ok(a), Ok(b)]`: when consuming the
separator fails on the end token, the code consumes the end token and
`break`s *before* the `results.push(res)` at the bottom of the loop, so the
final successful sub-parse `Ok(b)` is discarded. -/
theorem parse_sequence_drops_final_ok :
    (parse_sequence (lexerVecI Tok) Tok.kind basicSpec.null_map basicSpec.left_map 10 10
      PrecedenceLevel.Root (some Tok.comma) (some Tok.rparen)
      ⟨[Tok.ident "a", Tok.comma, Tok.ident "b", Tok.rparen], 0⟩).map Prod.fst ≠
    some [Except.ok (Node.Simple (Tok.ident "a")), Except.ok (Node.Simple (Tok.ident "b"))] := by
  have heval :
      (parse_sequence (lexerVecI Tok) Tok.kind basicSpec.null_map basicSpec.left_map 10 10
        PrecedenceLevel.Root (some Tok.comma) (some Tok.rparen)
        ⟨[Tok.ident "a", Tok.comma, Tok.ident "b", Tok.rparen], 0⟩).map Prod.fst =
      some [Except.ok (Node.Simple (Tok.ident "a"))] := rfl
  rw [heval]
  intro h
  injection h with h1
  injection h1 with hc1 hc2
  exact List.noConfusion hc2

/-- C3 amended: on `[a, ',', b, ')']` with separator `','` and end token
`')'`, `parse_sequence` returns only `[Ok(a)]` — `Ok(b)` is dropped when
the end token is recognized — and the `consume(')')` call leaves the
`LexerVec` at index 3, still *on* `')'` (never past it), because
`LexerVec::next_token` refuses to advance past the last token. -/
theorem parse_sequence_comma_rparen :
    parse_sequence (lexerVecI Tok) Tok.kind basicSpec.null_map basicSpec.left_map 10 10
      PrecedenceLevel.Root (some Tok.comma) (some Tok.rparen)
      ⟨[Tok.ident "a", Tok.comma, Tok.ident "b", Tok.rparen], 0⟩ =
    some ([Except.ok (Node.Simple (Tok.ident "a"))],
      ⟨[Tok.ident "a", Tok.comma, Tok.ident "b", Tok.rparen], 3⟩) ∧
    LexerVec.peek ⟨[Tok.ident "a", Tok.comma, Tok.ident "b", Tok.rparen], 3⟩ =
      some Tok.rparen := by
  exact ⟨rfl, rfl⟩

/-- C4: under the identity grammar (a null leaf rule for every kind, no
left rules) `parse()` on the one-token stream `[a]` returns
`Simple(a)` — but it leaves the `LexerVec` index at 0, because
`next_token` only increments when `index + 1 < len`.  A second `parse()`
therefore returns `Simple(a)` *again*, not `Incomplete`: a nonempty
`LexerVec` never reports exhaustion. -/
theorem parse_twice_one_token_never_incomplete :
    parse (lexerVecI Tok) Tok.kind idSpec.null_map idSpec.left_map 10
      ⟨[Tok.ident "a"], 0⟩ =
      some (Except.ok (Node.Simple (Tok.ident "a")), ⟨[Tok.ident "a"], 0⟩) ∧
    (parse (lexerVecI Tok) Tok.kind idSpec.null_map idSpec.left_map 10
      ⟨[Tok.ident "a"], 0⟩).map Prod.fst ≠
      some (Except.error ParseError.Incomplete) := by
  have heval :
      (parse (lexerVecI Tok) Tok.kind idSpec.null_map idSpec.left_map 10
        ⟨[Tok.ident "a"], 0⟩).map Prod.fst =
      some (Except.ok (Node.Simple (Tok.ident "a"))) := rfl
  refine ⟨rfl, ?_⟩
  rw [heval]
  intro h
  injection h with h1
  exact Except.noConfusion h1

/-- C5: a second registration for an already-registered kind fails with
`TokenToRuleAlreadyDefined` and leaves the table unchanged — the returned
spec is exactly the input spec, the first registration's binding power and
handler remain the entry for that kind — for the null table and likewise
for the left table. -/
theorem add_assoc_duplicate_rejected {σ T K : Type} [DecidableEq K] :
    (∀ (kind : T → K) (s s1 : ParserSpec σ T K) (t1 t2 : T) (bp1 bp2 : PrecedenceLevel)
       (f1 f2 : NullDenot σ T),
       s.add_null_assoc kind t1 bp1 f1 = (Except.ok (), s1) →
       kind t2 = kind t1 →
       s1.add_null_assoc kind t2 bp2 f2 =
         (Except.error (.TokenToRuleAlreadyDefined t2), s1) ∧
       mapGet s1.null_map (kind t1) = some (bp1, f1)) ∧
    (∀ (kind : T → K) (s s1 : ParserSpec σ T K) (t1 t2 : T) (bp1 bp2 : PrecedenceLevel)
       (f1 f2 : LeftDenot σ T),
       s.add_left_assoc kind t1 bp1 f1 = (Except.ok (), s1) →
       kind t2 = kind t1 →
       s1.add_left_assoc kind t2 bp2 f2 =
         (Except.error (.TokenToRuleAlreadyDefined t2), s1) ∧
       mapGet s1.left_map (kind t1) = some (bp1, bp1, f1)) := by
  constructor
  · intro kind s s1 t1 t2 bp1 bp2 f1 f2 h hk
    unfold ParserSpec.add_null_assoc at h
    by_cases hc : mapContains s.null_map (kind t1) = true
    · simp [hc] at h
    · simp [hc] at h
      have hget : mapGet s1.null_map (kind t1) = some (bp1, f1) := by
        rw [← h]
        simp [mapInsert, mapGet]
      refine ⟨?_, hget⟩
      unfold ParserSpec.add_null_assoc
      have : mapContains s1.null_map (kind t2) = true := by
        rw [hk]
        unfold mapContains
        rw [hget]
        rfl
      simp [this]
  · intro kind s s1 t1 t2 bp1 bp2 f1 f2 h hk
    unfold ParserSpec.add_left_assoc at h
    by_cases hc : mapContains s.left_map (kind t1) = true
    · simp [hc] at h
    · simp [hc] at h
      have hget : mapGet s1.left_map (kind t1) = some (bp1, bp1, f1) := by
        rw [← h]
        simp [mapInsert, mapGet]
      refine ⟨?_, hget⟩
      unfold ParserSpec.add_left_assoc
      have : mapContains s1.left_map (kind t2) = true := by
        rw [hk]
        unfold mapContains
        rw [hget]
        rfl
      simp [this]

/-- C5 witness: concrete duplicate registrations for the identifier kind in
the null table and for `+` in the left table are rejected and leave the
one-entry tables intact. -/
theorem add_assoc_duplicate_rejected_witness :
    ((ParserSpec.mk [(TokKind.KIdent, ((PrecedenceLevel.Root : PrecedenceLevel), null_node))] []
        : ParserSpec (LexerVec Tok) Tok TokKind).add_null_assoc Tok.kind
        (Tok.ident "y") .First null_node =
      (Except.error (.TokenToRuleAlreadyDefined (Tok.ident "y")),
        ParserSpec.mk [(TokKind.KIdent, (PrecedenceLevel.Root, null_node))] []) ∧
     mapGet [(TokKind.KIdent, ((PrecedenceLevel.Root : PrecedenceLevel),
        (null_node : NullDenot (LexerVec Tok) Tok)))] (Tok.kind (Tok.ident "x")) =
       some (PrecedenceLevel.Root, null_node)) ∧
    ((ParserSpec.mk [] [(TokKind.KAdd, ((PrecedenceLevel.First : PrecedenceLevel),
        PrecedenceLevel.First, recurse_call))]
        : ParserSpec (LexerVec Tok) Tok TokKind).add_left_assoc Tok.kind
        Tok.add .Second recurse_call =
      (Except.error (.TokenToRuleAlreadyDefined Tok.add),
        ParserSpec.mk [] [(TokKind.KAdd, (PrecedenceLevel.First, PrecedenceLevel.First, recurse_call))]) ∧
     mapGet [(TokKind.KAdd, ((PrecedenceLevel.First : PrecedenceLevel), PrecedenceLevel.First,
        (recurse_call : LeftDenot (LexerVec Tok) Tok)))] (Tok.kind Tok.add) =
       some (PrecedenceLevel.First, PrecedenceLevel.First, recurse_call)) := by
  exact ⟨add_assoc_duplicate_rejected.1 Tok.kind ParserSpec.new _
           (Tok.ident "x") (Tok.ident "y") .Root .First null_node null_node rfl rfl,
         add_assoc_duplicate_rejected.2 Tok.kind ParserSpec.new _
           Tok.add Tok.add .First .Second recurse_call recurse_call rfl rfl⟩

/-- C6: for every expected token `x`, `consume(x)` on an exhausted stream
(`peek` empty) fails `Incomplete` (so never `ConsumeFailed`) and leaves the
state unchanged; when the next token is structurally equal to `x` it
advances past it with `next_token` and succeeds; otherwise it fails
`ConsumeFailed{expected: x, found: t}` and consumes nothing. -/
theorem consume_cases {σ T : Type} [DecidableEq T] :
    ∀ (Lx : LexerI σ T) (x : T) (s : σ),
      (Lx.peek s = none → consume Lx x s = (Except.error ParseError.Incomplete, s)) ∧
      (Lx.peek s = some x → consume Lx x s = (Except.ok (), (Lx.next_token s).2)) ∧
      (∀ t, Lx.peek s = some t → t ≠ x →
        consume Lx x s = (Except.error (ParseError.ConsumeFailed x t), s)) := by
  intro Lx x s
  refine ⟨?_, ?_, ?_⟩
  · intro h
    unfold consume
    rw [h]
  · intro h
    unfold consume
    rw [h]
    simp
  · intro t h hne
    unfold consume
    rw [h]
    simp [hne]

/-- C6 witness: on the `LexerVec` `[+]` at index 0, consuming `+` succeeds
(the index stays within bounds), consuming `*` fails
`ConsumeFailed{expected: *, found: +}`, and consuming from the empty
`LexerVec` fails `Incomplete`. -/
theorem consume_cases_witness :
    consume (lexerVecI Tok) Tok.add ⟨[Tok.add], 0⟩ = (Except.ok (), ⟨[Tok.add], 0⟩) ∧
    consume (lexerVecI Tok) Tok.mul ⟨[Tok.add], 0⟩ =
      (Except.error (ParseError.ConsumeFailed Tok.mul Tok.add), ⟨[Tok.add], 0⟩) ∧
    consume (lexerVecI Tok) Tok.add ⟨[], 0⟩ = (Except.error ParseError.Incomplete, ⟨[], 0⟩) := by
  refine ⟨?_, ?_, ?_⟩
  · exact (consume_cases (lexerVecI Tok) Tok.add ⟨[Tok.add], 0⟩).2.1 rfl
  · exact (consume_cases (lexerVecI Tok) Tok.mul ⟨[Tok.add], 0⟩).2.2 Tok.add rfl
      (fun h => Tok.noConfusion h)
  · exact (consume_cases (lexerVecI Tok) Tok.add ⟨[], 0⟩).1 rfl

/-- C7: `next_binds_tighter_than(rbp)` is a pure function of the lexer
state (the Rust method only calls `peek`, consuming nothing); it returns
true iff the peeked token's kind has a left-table entry whose *right*
binding power strictly exceeds `rbp` — so it returns false on end of
stream, on a missing entry, and on a tie of powers. -/
theorem next_binds_tighter_iff {σ T K : Type} [DecidableEq T] [DecidableEq K] :
    ∀ (Lx : LexerI σ T) (kind : T → K) (left_map : List (K × LeftInfo σ T)) (s : σ)
      (rbp : PrecedenceLevel),
      (next_binds_tighter_than Lx kind left_map s rbp = true ↔
        ∃ tk info, Lx.peek s = some tk ∧ mapGet left_map (kind tk) = some info ∧
          rbp.toNat < info.2.1.toNat) ∧
      (∀ tk info, Lx.peek s = some tk → mapGet left_map (kind tk) = some info →
        info.2.1 = rbp → next_binds_tighter_than Lx kind left_map s rbp = false) := by
  intro Lx kind left_map s rbp
  constructor
  · unfold next_binds_tighter_than
    cases hpeek : Lx.peek s with
    | none => simp
    | some tk =>
      cases hget : mapGet left_map (kind tk) with
      | none => simp [hget]
      | some info =>
        obtain ⟨lbp2, rbp2, f2⟩ := info
        simp only [hget, Option.some.injEq, decide_eq_true_eq]
        constructor
        · intro h
          exact ⟨tk, (lbp2, rbp2, f2), rfl, hget, h⟩
        · rintro ⟨a, b, ha, hg, hlt⟩
          subst ha
          rw [hget] at hg
          injection hg with hg
          subst hg
          exact hlt
  · intro tk info hpeek hget hinfo
    obtain ⟨lbp2, rbp2, f2⟩ := info
    have h2 : rbp2 = rbp := hinfo
    subst h2
    unfold next_binds_tighter_than
    rw [hpeek]
    simp [hget]

/-- C7 witness: with the basic grammar and `+` as the next token,
`next_binds_tighter_than(Root)` is true (the `+` entry's right power `First`
exceeds `Root`) and `next_binds_tighter_than(First)` is false (a tie). -/
theorem next_binds_tighter_iff_witness :
    next_binds_tighter_than (lexerVecI Tok) Tok.kind basicSpec.left_map
      ⟨[Tok.add], 0⟩ PrecedenceLevel.Root = true ∧
    next_binds_tighter_than (lexerVecI Tok) Tok.kind basicSpec.left_map
      ⟨[Tok.add], 0⟩ PrecedenceLevel.First = false := by
  constructor
  · exact (next_binds_tighter_iff (lexerVecI Tok) Tok.kind basicSpec.left_map
      ⟨[Tok.add], 0⟩ PrecedenceLevel.Root).1.mpr
      ⟨Tok.add, (PrecedenceLevel.First, PrecedenceLevel.First, recurse_call), rfl, rfl,
        by decide⟩
  · exact (next_binds_tighter_iff (lexerVecI Tok) Tok.kind basicSpec.left_map
      ⟨[Tok.add], 0⟩ PrecedenceLevel.First).2
      Tok.add (PrecedenceLevel.First, PrecedenceLevel.First, recurse_call) rfl rfl rfl

/-- C8: when a `parse_sequence` sub-parse fails, the failure `Incomplete`
with no end token configured makes the loop return the results accumulated
so far *without* appending that failure (in this recursive rendering, the
current frame contributes `[]`); any other failure — a different error, or
`Incomplete` while an end token is configured — is appended and the loop
stops. -/
theorem parse_sequence_failure_cases {σ T K : Type} [DecidableEq T] [DecidableEq K] :
    ∀ (Lx : LexerI σ T) (kind : T → K) (null_map : List (K × NullInfo σ T))
      (left_map : List (K × LeftInfo σ T)) (pfuel fuel : Nat) (prec : PrecedenceLevel)
      (sep endTok : Option T) (s s1 : σ) (e : ParseError T),
      parse_expr Lx kind null_map left_map pfuel prec s = some (Except.error e, s1) →
      ((e = ParseError.Incomplete ∧ endTok = none →
         parse_sequence Lx kind null_map left_map pfuel (fuel + 1) prec sep endTok s =
           some ([], s1)) ∧
       (¬(e = ParseError.Incomplete ∧ endTok = none) →
         parse_sequence Lx kind null_map left_map pfuel (fuel + 1) prec sep endTok s =
           some ([Except.error e], s1))) := by
  intro Lx kind null_map left_map pfuel fuel prec sep endTok s s1 e h
  constructor
  · rintro ⟨he, hend⟩
    subst he
    subst hend
    unfold parse_sequence
    rw [h]
  · intro hne
    unfold parse_sequence
    rw [h]
    cases e <;> cases endTok <;>
      first
        | rfl
        | exact absurd ⟨rfl, rfl⟩ hne

/-- C8 witness: on the empty `LexerVec` the sub-parse fails `Incomplete`;
with no end token `parse_sequence` returns `[]` (nothing appended), while
with end token `)` it returns `[Err(Incomplete)]`. -/
theorem parse_sequence_failure_cases_witness :
    parse_sequence (lexerVecI Tok) Tok.kind idSpec.null_map idSpec.left_map 1 1
      PrecedenceLevel.Root none none ⟨[], 0⟩ = some ([], ⟨[], 0⟩) ∧
    parse_sequence (lexerVecI Tok) Tok.kind idSpec.null_map idSpec.left_map 1 1
      PrecedenceLevel.Root none (some Tok.rparen) ⟨[], 0⟩ =
      some ([Except.error ParseError.Incomplete], ⟨[], 0⟩) := by
  constructor
  · exact (parse_sequence_failure_cases (lexerVecI Tok) Tok.kind idSpec.null_map
      idSpec.left_map 1 0 PrecedenceLevel.Root none none ⟨[], 0⟩ ⟨[], 0⟩
      ParseError.Incomplete rfl).1 ⟨rfl, rfl⟩
  · exact (parse_sequence_failure_cases (lexerVecI Tok) Tok.kind idSpec.null_map
      idSpec.left_map 1 0 PrecedenceLevel.Root none (some Tok.rparen) ⟨[], 0⟩ ⟨[], 0⟩
      ParseError.Incomplete rfl).2 (fun hc => Option.noConfusion hc.2)

/-- An engine result is free of `MissingRule{ty:"Left"}`: the error the
re-lookup branch of `parse_expr`'s continuation loop would produce. -/
def NoLeftMissing {σ T : Type} (r : Option ((Except (ParseError T) (Node T)) × σ)) : Prop :=
  ∀ (t : T) (s2 : σ), r ≠ some (Except.error (ParseError.MissingRule t "Left"), s2)

/-- An engine interface that never hands a handler a
`MissingRule{ty:"Left"}` error. -/
def IntfNoLeft {σ T : Type} (i : PIntf σ T) : Prop :=
  (∀ rbp s, NoLeftMissing (i.parse_expr rbp s)) ∧
  (∀ x s t, (i.consume x s).1 ≠ Except.error (ParseError.MissingRule t "Left"))

/-- A null denotation that only produces `MissingRule{ty:"Left"}` if the
engine interface it re-enters produced it first. -/
def NullDenotBlameless {σ T : Type} (f : NullDenot σ T) : Prop :=
  ∀ i, IntfNoLeft i → ∀ t bp s, NoLeftMissing (f i t bp s)

/-- A left denotation that only produces `MissingRule{ty:"Left"}` if the
engine interface it re-enters produced it first. -/
def LeftDenotBlameless {σ T : Type} (f : LeftDenot σ T) : Prop :=
  ∀ i, IntfNoLeft i → ∀ t bp n s, NoLeftMissing (f i t bp n s)

theorem noLeftMissing_none {σ T : Type} : NoLeftMissing (σ := σ) (T := T) none := by
  intro t s2 h
  exact Option.noConfusion h

theorem noLeftMissing_ok {σ T : Type} (n : Node T) (s : σ) :
    NoLeftMissing (some (Except.ok n, s)) := by
  intro t s2 h
  injection h with h1
  injection h1 with h2 h3
  exact Except.noConfusion h2

theorem noLeftMissing_error {σ T : Type} {e : ParseError T} {s : σ}
    (he : ∀ t, e ≠ ParseError.MissingRule t "Left") :
    NoLeftMissing (some (Except.error e, s)) := by
  intro t s2 h
  injection h with h1
  injection h1 with h2 h3
  injection h2 with h4
  exact he t h4

/-- `consume` can only fail with `ConsumeFailed` or `Incomplete`, never a
`MissingRule`. -/
theorem consume_no_missing_rule {σ T : Type} [DecidableEq T] (Lx : LexerI σ T)
    (x : T) (s : σ) (t : T) (ty : String) :
    (consume Lx x s).1 ≠ Except.error (ParseError.MissingRule t ty) := by
  unfold consume
  cases hpeek : Lx.peek s with
  | none =>
    intro h
    injection h with h1
    exact ParseError.noConfusion h1
  | some tk =>
    by_cases he : tk = x
    · simp [he]
    · simp [he]

/-- When the continuation-loop guard succeeds and the lexer is coherent
(`peek` previews exactly what `next_token` will deliver — as `LexerVec`
does), the left-table re-lookup performed after advancing finds an entry. -/
theorem guard_gives_left_entry {σ T K : Type} [DecidableEq T] [DecidableEq K]
    (Lx : LexerI σ T) (kind : T → K) (left_map : List (K × LeftInfo σ T))
    (coh : ∀ s t, Lx.peek s = some t → (Lx.next_token s).1 = t)
    (s : σ) (rbp : PrecedenceLevel)
    (hguard : next_binds_tighter_than Lx kind left_map s rbp = true) :
    ∃ info, mapGet left_map (kind ((Lx.next_token s).1)) = some info := by
  unfold next_binds_tighter_than at hguard
  cases hpeek : Lx.peek s with
  | none =>
    rw [hpeek] at hguard
    simp at hguard
  | some tk =>
    rw [hpeek] at hguard
    have hguard2 : (match mapGet left_map (kind tk) with
        | some (_, next_rbp, _) => decide (rbp.toNat < next_rbp.toNat)
        | none => false) = true := hguard
    cases hget : mapGet left_map (kind tk) with
    | none =>
      rw [hget] at hguard2
      simp at hguard2
    | some info =>
      rw [coh s tk hpeek]
      exact ⟨info, hget⟩

/-- The continuation loop never produces `MissingRule{ty:"Left"}` when the
lexer is coherent, every registered left denotation is blameless, and the
interface handed to handlers is itself clean: the guard guarantees the
re-lookup succeeds, so the error branch is unreachable. -/
theorem parse_loop_no_left_missing {σ T K : Type} [DecidableEq T] [DecidableEq K]
    (Lx : LexerI σ T) (kind : T → K) (left_map : List (K × LeftInfo σ T))
    (coh : ∀ s t, Lx.peek s = some t → (Lx.next_token s).1 = t)
    (hleft : ∀ k e, mapGet left_map k = some e → LeftDenotBlameless e.2.2)
    (intf : PIntf σ T) (hintf : IntfNoLeft intf) :
    ∀ (fuel : Nat) (rbp : PrecedenceLevel) (left : Node T) (s : σ),
      NoLeftMissing (parse_loop Lx kind left_map intf fuel rbp left s) := by
  intro fuel
  induction fuel with
  | zero =>
    intro rbp left s
    exact noLeftMissing_none
  | succ fuel ih =>
    intro rbp left s
    unfold parse_loop
    by_cases hguard : next_binds_tighter_than Lx kind left_map s rbp = true
    · rw [hguard]
      simp only [if_true]
      obtain ⟨info, hlk⟩ := guard_gives_left_entry Lx kind left_map coh s rbp hguard
      obtain ⟨lbp2, rbp2, f2⟩ := info
      rw [hlk]
      have hden := hleft _ _ hlk intf hintf ((Lx.next_token s).1) lbp2 left ((Lx.next_token s).2)
      change NoLeftMissing (match f2 intf ((Lx.next_token s).1) lbp2 left ((Lx.next_token s).2) with
        | none => none
        | some (Except.error e, s2) => some (Except.error e, s2)
        | some (Except.ok left2, s2) => parse_loop Lx kind left_map intf fuel rbp left2 s2)
      cases hres : f2 intf ((Lx.next_token s).1) lbp2 left ((Lx.next_token s).2) with
      | none => exact noLeftMissing_none
      | some pr =>
        obtain ⟨res, s2⟩ := pr
        cases res with
        | ok left2 =>
          exact ih rbp left2 s2
        | error e =>
          refine noLeftMissing_error ?_
          intro t he
          subst he
          exact hden t s2 hres
    · rw [Bool.not_eq_true] at hguard
      rw [hguard]
      simp only [if_false]
      exact noLeftMissing_ok left s

/-- C9: for every lexer in which `peek` previews exactly the token the
following `next_token` returns (as `LexerVec` satisfies), and every grammar
whose handlers do not themselves fabricate the error, `parse_expr` never
returns `MissingRule` with table `"Left"`: whenever the continuation loop's
guard succeeds, the post-advance left-table lookup finds an entry, so the
error branch at the re-lookup is unreachable. -/
theorem parse_expr_never_missing_left {σ T K : Type} [DecidableEq T] [DecidableEq K]
    (Lx : LexerI σ T) (kind : T → K) (null_map : List (K × NullInfo σ T))
    (left_map : List (K × LeftInfo σ T))
    (coh : ∀ s t, Lx.peek s = some t → (Lx.next_token s).1 = t)
    (hnull : ∀ k e, mapGet null_map k = some e → NullDenotBlameless e.2)
    (hleft : ∀ k e, mapGet left_map k = some e → LeftDenotBlameless e.2.2) :
    ∀ (fuel : Nat) (rbp : PrecedenceLevel) (s : σ),
      NoLeftMissing (parse_expr Lx kind null_map left_map fuel rbp s) := by
  intro fuel
  induction fuel with
  | zero =>
    intro rbp s
    exact noLeftMissing_none
  | succ fuel ih =>
    intro rbp s
    unfold parse_expr
    cases hpeek : Lx.peek s with
    | none =>
      refine noLeftMissing_error ?_
      intro t he
      exact ParseError.noConfusion he
    | some tk =>
      change NoLeftMissing (match mapGet null_map (kind tk) with
        | none => some (Except.error (ParseError.MissingRule tk "Null"), (Lx.next_token s).2)
        | some (lbp, func) =>
          match func ⟨fun r st => parse_expr Lx kind null_map left_map fuel r st,
              fun t st => consume Lx t st⟩ tk lbp ((Lx.next_token s).2) with
          | none => none
          | some (Except.error e, s2) => some (Except.error e, s2)
          | some (Except.ok left, s2) => parse_loop Lx kind left_map
              ⟨fun r st => parse_expr Lx kind null_map left_map fuel r st,
               fun t st => consume Lx t st⟩ fuel rbp left s2)
      cases hlk : mapGet null_map (kind tk) with
      | none =>
        refine noLeftMissing_error ?_
        intro t he
        injection he with h1 h2
        exact absurd h2 (by decide)
      | some info =>
        obtain ⟨bp, f⟩ := info
        have hintf : IntfNoLeft (σ := σ) (T := T)
            ⟨fun r st => parse_expr Lx kind null_map left_map fuel r st,
             fun t st => consume Lx t st⟩ := by
          constructor
          · intro rbp2 s2
            exact ih rbp2 s2
          · intro x s2 t
            exact consume_no_missing_rule Lx x s2 t "Left"
        have hden := hnull _ _ hlk _ hintf tk bp ((Lx.next_token s).2)
        change NoLeftMissing (match f ⟨fun r st => parse_expr Lx kind null_map left_map fuel r st,
            fun t st => consume Lx t st⟩ tk bp ((Lx.next_token s).2) with
          | none => none
          | some (Except.error e, s2) => some (Except.error e, s2)
          | some (Except.ok left, s2) => parse_loop Lx kind left_map
              ⟨fun r st => parse_expr Lx kind null_map left_map fuel r st,
               fun t st => consume Lx t st⟩ fuel rbp left s2)
        cases hres : f ⟨fun r st => parse_expr Lx kind null_map left_map fuel r st,
            fun t st => consume Lx t st⟩ tk bp ((Lx.next_token s).2) with
        | none => exact noLeftMissing_none
        | some pr =>
          obtain ⟨res, s2⟩ := pr
          cases res with
          | ok left =>
            exact parse_loop_no_left_missing Lx kind left_map coh hleft _ hintf fuel rbp left s2
          | error e =>
            refine noLeftMissing_error ?_
            intro t he
            subst he
            exact hden t s2 hres

/-- C9 witness: `LexerVec` is coherent, the empty grammar's handler
conditions hold vacuously, and `parse_expr` on `[+]` consequently cannot
have produced `MissingRule{ty:"Left"}` (it in fact produces
`MissingRule{ty:"Null"}`). -/
theorem parse_expr_never_missing_left_witness :
    parse_expr (lexerVecI Tok) Tok.kind ([] : List (TokKind × NullInfo (LexerVec Tok) Tok))
      ([] : List (TokKind × LeftInfo (LexerVec Tok) Tok)) 1 PrecedenceLevel.Root
      ⟨[Tok.add], 0⟩ ≠
    some (Except.error (ParseError.MissingRule Tok.add "Left"), ⟨[Tok.add], 0⟩) := by
  refine parse_expr_never_missing_left (lexerVecI Tok) Tok.kind [] [] ?_ ?_ ?_ 1
    PrecedenceLevel.Root ⟨[Tok.add], 0⟩ Tok.add ⟨[Tok.add], 0⟩
  · intro s t hpeek
    unfold lexerVecI LexerVec.peek at hpeek
    unfold lexerVecI LexerVec.next_token
    by_cases h : s.index < s.inner.length
    · simp [h] at hpeek
      by_cases h2 : s.index + 1 < s.inner.length
      · simp [h2, ← hpeek, List.getD, List.getElem?_eq_getElem h]
      · simp [h2, ← hpeek, List.getD, List.getElem?_eq_getElem h]
    · simp [h] at hpeek
  · intro k e h
    exact Option.noConfusion h
  · intro k e h
    exact Option.noConfusion h

theorem mapContains_insert {K V : Type} [DecidableEq K] (m : List (K × V)) (k2 : K) (v : V)
    (k : K) (hk : mapContains m k = true) : mapContains (mapInsert m k2 v) k = true := by
  unfold mapContains at hk ⊢
  unfold mapInsert
  by_cases he : k2 = k
  · simp [mapGet, he]
  · simp only [mapGet]
    rw [if_neg he]
    exact hk

theorem mapContains_insert_self {K V : Type} [DecidableEq K] (m : List (K × V)) (k : K)
    (v : V) : mapContains (mapInsert m k v) k = true := by
  unfold mapContains mapInsert
  simp [mapGet]

theorem add_null_assoc_ok {σ T K : Type} [DecidableEq K] (kind : T → K)
    (s : ParserSpec σ T K) (t : T) (bp : PrecedenceLevel) (f : NullDenot σ T)
    (h : mapContains s.null_map (kind t) = false) :
    s.add_null_assoc kind t bp f =
      (Except.ok (), ⟨mapInsert s.null_map (kind t) (bp, f), s.left_map⟩) := by
  unfold ParserSpec.add_null_assoc
  simp [h]

theorem add_null_assoc_dup {σ T K : Type} [DecidableEq K] (kind : T → K)
    (s : ParserSpec σ T K) (t : T) (bp : PrecedenceLevel) (f : NullDenot σ T)
    (h : mapContains s.null_map (kind t) = true) :
    s.add_null_assoc kind t bp f = (Except.error (.TokenToRuleAlreadyDefined t), s) := by
  unfold ParserSpec.add_null_assoc
  simp [h]

theorem add_null_assoc_preserves {σ T K : Type} [DecidableEq K] (kind : T → K)
    (s : ParserSpec σ T K) (t : T) (bp : PrecedenceLevel) (f : NullDenot σ T) (k : K)
    (hk : mapContains s.null_map k = true) :
    mapContains ((s.add_null_assoc kind t bp f).2).null_map k = true := by
  by_cases hc : mapContains s.null_map (kind t) = true
  · rw [add_null_assoc_dup kind s t bp f hc]
    exact hk
  · rw [add_null_assoc_ok kind s t bp f (by rw [Bool.not_eq_true] at hc; exact hc)]
    exact mapContains_insert s.null_map (kind t) (bp, f) k hk

theorem add_null_assoc_ok_contains {σ T K : Type} [DecidableEq K] (kind : T → K)
    (s s1 : ParserSpec σ T K) (t : T) (bp : PrecedenceLevel) (f : NullDenot σ T) (r : Unit)
    (h : s.add_null_assoc kind t bp f = (Except.ok r, s1)) :
    mapContains s1.null_map (kind t) = true := by
  by_cases hc : mapContains s.null_map (kind t) = true
  · rw [add_null_assoc_dup kind s t bp f hc] at h
    injection h with h1 h2
    exact Except.noConfusion h1
  · rw [add_null_assoc_ok kind s t bp f (by rw [Bool.not_eq_true] at hc; exact hc)] at h
    injection h with h1 h2
    rw [← h2]
    exact mapContains_insert_self s.null_map (kind t) (bp, f)

theorem add_null_associations_cons_ok {σ T K : Type} [DecidableEq K] (kind : T → K)
    (s s1 : ParserSpec σ T K) (t : T) (rest : List T) (bp : PrecedenceLevel)
    (f : NullDenot σ T) (r : Unit) (h : s.add_null_assoc kind t bp f = (Except.ok r, s1)) :
    ParserSpec.add_null_associations kind s (t :: rest) bp f =
      ParserSpec.add_null_associations kind s1 rest bp f := by
  show (match s.add_null_assoc kind t bp f with
    | (Except.ok _, s1) => ParserSpec.add_null_associations kind s1 rest bp f
    | (Except.error e, s1) => (Except.error e, s1)) =
      ParserSpec.add_null_associations kind s1 rest bp f
  rw [h]

theorem add_null_associations_cons_error {σ T K : Type} [DecidableEq K] (kind : T → K)
    (s s1 : ParserSpec σ T K) (t : T) (rest : List T) (bp : PrecedenceLevel)
    (f : NullDenot σ T) (e : SpecificationError T)
    (h : s.add_null_assoc kind t bp f = (Except.error e, s1)) :
    ParserSpec.add_null_associations kind s (t :: rest) bp f = (Except.error e, s1) := by
  show (match s.add_null_assoc kind t bp f with
    | (Except.ok _, s1) => ParserSpec.add_null_associations kind s1 rest bp f
    | (Except.error e, s1) => (Except.error e, s1)) = (Except.error e, s1)
  rw [h]

theorem add_null_associations_preserves {σ T K : Type} [DecidableEq K] (kind : T → K)
    (bp : PrecedenceLevel) (f : NullDenot σ T) :
    ∀ (ts : List T) (s : ParserSpec σ T K) (k : K),
      mapContains s.null_map k = true →
      mapContains ((ParserSpec.add_null_associations kind s ts bp f).2).null_map k = true := by
  intro ts
  induction ts with
  | nil =>
    intro s k hk
    exact hk
  | cons t rest ih =>
    intro s k hk
    cases hadd : s.add_null_assoc kind t bp f with
    | mk r s1 =>
      have h1 : mapContains s1.null_map k = true := by
        have h2 := add_null_assoc_preserves kind s t bp f k hk
        rw [hadd] at h2
        exact h2
      cases r with
      | ok u =>
        rw [add_null_associations_cons_ok kind s s1 t rest bp f u hadd]
        exact ih s1 k h1
      | error e =>
        rw [add_null_associations_cons_error kind s s1 t rest bp f e hadd]
        exact h1

theorem add_null_associations_mem {σ T K : Type} [DecidableEq K] (kind : T → K)
    (bp : PrecedenceLevel) (f : NullDenot σ T) :
    ∀ (ts : List T) (s s' : ParserSpec σ T K),
      ParserSpec.add_null_associations kind s ts bp f = (Except.ok (), s') →
      ∀ u ∈ ts, mapContains s'.null_map (kind u) = true := by
  intro ts
  induction ts with
  | nil =>
    intro s s' h u hu
    exact absurd hu (List.not_mem_nil u)
  | cons t rest ih =>
    intro s s' h u hu
    cases hadd : s.add_null_assoc kind t bp f with
    | mk r s1 =>
      cases r with
      | error e =>
        rw [add_null_associations_cons_error kind s s1 t rest bp f e hadd] at h
        injection h with h1 h2
        exact Except.noConfusion h1
      | ok u2 =>
        rw [add_null_associations_cons_ok kind s s1 t rest bp f u2 hadd] at h
        rcases List.mem_cons.mp hu with hu1 | hu2
        · subst hu1
          have hc1 : mapContains s1.null_map (kind u) = true :=
            add_null_assoc_ok_contains kind s s1 u bp f u2 hadd
          have h2 := add_null_associations_preserves kind bp f rest s1 (kind u) hc1
          rw [h] at h2
          exact h2
        · exact ih s1 s' h u hu2

theorem add_null_associations_ok_append {σ T K : Type} [DecidableEq K] (kind : T → K)
    (bp : PrecedenceLevel) (f : NullDenot σ T) :
    ∀ (pre rest : List T) (s s' : ParserSpec σ T K),
      ParserSpec.add_null_associations kind s pre bp f = (Except.ok (), s') →
      ParserSpec.add_null_associations kind s (pre ++ rest) bp f =
        ParserSpec.add_null_associations kind s' rest bp f := by
  intro pre
  induction pre with
  | nil =>
    intro rest s s' h
    injection h with h1 h2
    rw [List.nil_append, h2]
  | cons t pre2 ih =>
    intro rest s s' h
    cases hadd : s.add_null_assoc kind t bp f with
    | mk r s1 =>
      cases r with
      | error e =>
        rw [add_null_associations_cons_error kind s s1 t pre2 bp f e hadd] at h
        injection h with h1 h2
        exact Except.noConfusion h1
      | ok u =>
        rw [add_null_associations_cons_ok kind s s1 t pre2 bp f u hadd] at h
        rw [List.cons_append]
        rw [add_null_associations_cons_ok kind s s1 t (pre2 ++ rest) bp f u hadd]
        exact ih rest s1 s' h

theorem add_left_assoc_ok {σ T K : Type} [DecidableEq K] (kind : T → K)
    (s : ParserSpec σ T K) (t : T) (bp : PrecedenceLevel) (f : LeftDenot σ T)
    (h : mapContains s.left_map (kind t) = false) :
    s.add_left_assoc kind t bp f =
      (Except.ok (), ⟨s.null_map, mapInsert s.left_map (kind t) (bp, bp, f)⟩) := by
  unfold ParserSpec.add_left_assoc
  simp [h]

theorem add_left_assoc_dup {σ T K : Type} [DecidableEq K] (kind : T → K)
    (s : ParserSpec σ T K) (t : T) (bp : PrecedenceLevel) (f : LeftDenot σ T)
    (h : mapContains s.left_map (kind t) = true) :
    s.add_left_assoc kind t bp f = (Except.error (.TokenToRuleAlreadyDefined t), s) := by
  unfold ParserSpec.add_left_assoc
  simp [h]

theorem add_left_assoc_preserves {σ T K : Type} [DecidableEq K] (kind : T → K)
    (s : ParserSpec σ T K) (t : T) (bp : PrecedenceLevel) (f : LeftDenot σ T) (k : K)
    (hk : mapContains s.left_map k = true) :
    mapContains ((s.add_left_assoc kind t bp f).2).left_map k = true := by
  by_cases hc : mapContains s.left_map (kind t) = true
  · rw [add_left_assoc_dup kind s t bp f hc]
    exact hk
  · rw [add_left_assoc_ok kind s t bp f (by rw [Bool.not_eq_true] at hc; exact hc)]
    exact mapContains_insert s.left_map (kind t) (bp, bp, f) k hk

theorem add_left_assoc_ok_contains {σ T K : Type} [DecidableEq K] (kind : T → K)
    (s s1 : ParserSpec σ T K) (t : T) (bp : PrecedenceLevel) (f : LeftDenot σ T) (r : Unit)
    (h : s.add_left_assoc kind t bp f = (Except.ok r, s1)) :
    mapContains s1.left_map (kind t) = true := by
  by_cases hc : mapContains s.left_map (kind t) = true
  · rw [add_left_assoc_dup kind s t bp f hc] at h
    injection h with h1 h2
    exact Except.noConfusion h1
  · rw [add_left_assoc_ok kind s t bp f (by rw [Bool.not_eq_true] at hc; exact hc)] at h
    injection h with h1 h2
    rw [← h2]
    exact mapContains_insert_self s.left_map (kind t) (bp, bp, f)

theorem add_left_associations_cons_ok {σ T K : Type} [DecidableEq K] (kind : T → K)
    (s s1 : ParserSpec σ T K) (t : T) (rest : List T) (bp : PrecedenceLevel)
    (f : LeftDenot σ T) (r : Unit) (h : s.add_left_assoc kind t bp f = (Except.ok r, s1)) :
    ParserSpec.add_left_associations kind s (t :: rest) bp f =
      ParserSpec.add_left_associations kind s1 rest bp f := by
  show (match s.add_left_assoc kind t bp f with
    | (Except.ok _, s1) => ParserSpec.add_left_associations kind s1 rest bp f
    | (Except.error e, s1) => (Except.error e, s1)) =
      ParserSpec.add_left_associations kind s1 rest bp f
  rw [h]

theorem add_left_associations_cons_error {σ T K : Type} [DecidableEq K] (kind : T → K)
    (s s1 : ParserSpec σ T K) (t : T) (rest : List T) (bp : PrecedenceLevel)
    (f : LeftDenot σ T) (e : SpecificationError T)
    (h : s.add_left_assoc kind t bp f = (Except.error e, s1)) :
    ParserSpec.add_left_associations kind s (t :: rest) bp f = (Except.error e, s1) := by
  show (match s.add_left_assoc kind t bp f with
    | (Except.ok _, s1) => ParserSpec.add_left_associations kind s1 rest bp f
    | (Except.error e, s1) => (Except.error e, s1)) = (Except.error e, s1)
  rw [h]

theorem add_left_associations_preserves {σ T K : Type} [DecidableEq K] (kind : T → K)
    (bp : PrecedenceLevel) (f : LeftDenot σ T) :
    ∀ (ts : List T) (s : ParserSpec σ T K) (k : K),
      mapContains s.left_map k = true →
      mapContains ((ParserSpec.add_left_associations kind s ts bp f).2).left_map k = true := by
  intro ts
  induction ts with
  | nil =>
    intro s k hk
    exact hk
  | cons t rest ih =>
    intro s k hk
    cases hadd : s.add_left_assoc kind t bp f with
    | mk r s1 =>
      have h1 : mapContains s1.left_map k = true := by
        have h2 := add_left_assoc_preserves kind s t bp f k hk
        rw [hadd] at h2
        exact h2
      cases r with
      | ok u =>
        rw [add_left_associations_cons_ok kind s s1 t rest bp f u hadd]
        exact ih s1 k h1
      | error e =>
        rw [add_left_associations_cons_error kind s s1 t rest bp f e hadd]
        exact h1

theorem add_left_associations_mem {σ T K : Type} [DecidableEq K] (kind : T → K)
    (bp : PrecedenceLevel) (f : LeftDenot σ T) :
    ∀ (ts : List T) (s s' : ParserSpec σ T K),
      ParserSpec.add_left_associations kind s ts bp f = (Except.ok (), s') →
      ∀ u ∈ ts, mapContains s'.left_map (kind u) = true := by
  intro ts
  induction ts with
  | nil =>
    intro s s' h u hu
    exact absurd hu (List.not_mem_nil u)
  | cons t rest ih =>
    intro s s' h u hu
    cases hadd : s.add_left_assoc kind t bp f with
    | mk r s1 =>
      cases r with
      | error e =>
        rw [add_left_associations_cons_error kind s s1 t rest bp f e hadd] at h
        injection h with h1 h2
        exact Except.noConfusion h1
      | ok u2 =>
        rw [add_left_associations_cons_ok kind s s1 t rest bp f u2 hadd] at h
        rcases List.mem_cons.mp hu with hu1 | hu2
        · subst hu1
          have hc1 : mapContains s1.left_map (kind u) = true :=
            add_left_assoc_ok_contains kind s s1 u bp f u2 hadd
          have h2 := add_left_associations_preserves kind bp f rest s1 (kind u) hc1
          rw [h] at h2
          exact h2
        · exact ih s1 s' h u hu2

theorem add_left_associations_ok_append {σ T K : Type} [DecidableEq K] (kind : T → K)
    (bp : PrecedenceLevel) (f : LeftDenot σ T) :
    ∀ (pre rest : List T) (s s' : ParserSpec σ T K),
      ParserSpec.add_left_associations kind s pre bp f = (Except.ok (), s') →
      ParserSpec.add_left_associations kind s (pre ++ rest) bp f =
        ParserSpec.add_left_associations kind s' rest bp f := by
  intro pre
  induction pre with
  | nil =>
    intro rest s s' h
    injection h with h1 h2
    rw [List.nil_append, h2]
  | cons t pre2 ih =>
    intro rest s s' h
    cases hadd : s.add_left_assoc kind t bp f with
    | mk r s1 =>
      cases r with
      | error e =>
        rw [add_left_associations_cons_error kind s s1 t pre2 bp f e hadd] at h
        injection h with h1 h2
        exact Except.noConfusion h1
      | ok u =>
        rw [add_left_associations_cons_ok kind s s1 t pre2 bp f u hadd] at h
        rw [List.cons_append]
        rw [add_left_associations_cons_ok kind s s1 t (pre2 ++ rest) bp f u hadd]
        exact ih rest s1 s' h


theorem add_left_right_assoc_ok {σ T K : Type} [DecidableEq K] (kind : T → K)
    (s : ParserSpec σ T K) (t : T) (lbp rbp : PrecedenceLevel) (f : LeftDenot σ T)
    (h : mapContains s.left_map (kind t) = false) :
    s.add_left_right_assoc kind t lbp rbp f =
      (Except.ok (), ⟨s.null_map, mapInsert s.left_map (kind t) (lbp, rbp, f)⟩) := by
  unfold ParserSpec.add_left_right_assoc
  simp [h]

theorem add_left_right_assoc_dup {σ T K : Type} [DecidableEq K] (kind : T → K)
    (s : ParserSpec σ T K) (t : T) (lbp rbp : PrecedenceLevel) (f : LeftDenot σ T)
    (h : mapContains s.left_map (kind t) = true) :
    s.add_left_right_assoc kind t lbp rbp f = (Except.error (.TokenToRuleAlreadyDefined t), s) := by
  unfold ParserSpec.add_left_right_assoc
  simp [h]

theorem add_left_right_assoc_preserves {σ T K : Type} [DecidableEq K] (kind : T → K)
    (s : ParserSpec σ T K) (t : T) (lbp rbp : PrecedenceLevel) (f : LeftDenot σ T) (k : K)
    (hk : mapContains s.left_map k = true) :
    mapContains ((s.add_left_right_assoc kind t lbp rbp f).2).left_map k = true := by
  by_cases hc : mapContains s.left_map (kind t) = true
  · rw [add_left_right_assoc_dup kind s t lbp rbp f hc]
    exact hk
  · rw [add_left_right_assoc_ok kind s t lbp rbp f (by rw [Bool.not_eq_true] at hc; exact hc)]
    exact mapContains_insert s.left_map (kind t) (lbp, rbp, f) k hk

theorem add_left_right_assoc_ok_contains {σ T K : Type} [DecidableEq K] (kind : T → K)
    (s s1 : ParserSpec σ T K) (t : T) (lbp rbp : PrecedenceLevel) (f : LeftDenot σ T) (r : Unit)
    (h : s.add_left_right_assoc kind t lbp rbp f = (Except.ok r, s1)) :
    mapContains s1.left_map (kind t) = true := by
  by_cases hc : mapContains s.left_map (kind t) = true
  · rw [add_left_right_assoc_dup kind s t lbp rbp f hc] at h
    injection h with h1 h2
    exact Except.noConfusion h1
  · rw [add_left_right_assoc_ok kind s t lbp rbp f (by rw [Bool.not_eq_true] at hc; exact hc)] at h
    injection h with h1 h2
    rw [← h2]
    exact mapContains_insert_self s.left_map (kind t) (lbp, rbp, f)

theorem add_left_right_associations_cons_ok {σ T K : Type} [DecidableEq K] (kind : T → K)
    (s s1 : ParserSpec σ T K) (t : T) (rest : List T) (lbp rbp : PrecedenceLevel)
    (f : LeftDenot σ T) (r : Unit) (h : s.add_left_right_assoc kind t lbp rbp f = (Except.ok r, s1)) :
    ParserSpec.add_left_right_associations kind s (t :: rest) lbp rbp f =
      ParserSpec.add_left_right_associations kind s1 rest lbp rbp f := by
  show (match s.add_left_right_assoc kind t lbp rbp f with
    | (Except.ok _, s1) => ParserSpec.add_left_right_associations kind s1 rest lbp rbp f
    | (Except.error e, s1) => (Except.error e, s1)) =
      ParserSpec.add_left_right_associations kind s1 rest lbp rbp f
  rw [h]

theorem add_left_right_associations_cons_error {σ T K : Type} [DecidableEq K] (kind : T → K)
    (s s1 : ParserSpec σ T K) (t : T) (rest : List T) (lbp rbp : PrecedenceLevel)
    (f : LeftDenot σ T) (e : SpecificationError T)
    (h : s.add_left_right_assoc kind t lbp rbp f = (Except.error e, s1)) :
    ParserSpec.add_left_right_associations kind s (t :: rest) lbp rbp f = (Except.error e, s1) := by
  show (match s.add_left_right_assoc kind t lbp rbp f with
    | (Except.ok _, s1) => ParserSpec.add_left_right_associations kind s1 rest lbp rbp f
    | (Except.error e, s1) => (Except.error e, s1)) = (Except.error e, s1)
  rw [h]

theorem add_left_right_associations_preserves {σ T K : Type} [DecidableEq K] (kind : T → K)
    (lbp rbp : PrecedenceLevel) (f : LeftDenot σ T) :
    ∀ (ts : List T) (s : ParserSpec σ T K) (k : K),
      mapContains s.left_map k = true →
      mapContains ((ParserSpec.add_left_right_associations kind s ts lbp rbp f).2).left_map k = true := by
  intro ts
  induction ts with
  | nil =>
    intro s k hk
    exact hk
  | cons t rest ih =>
    intro s k hk
    cases hadd : s.add_left_right_assoc kind t lbp rbp f with
    | mk r s1 =>
      have h1 : mapContains s1.left_map k = true := by
        have h2 := add_left_right_assoc_preserves kind s t lbp rbp f k hk
        rw [hadd] at h2
        exact h2
      cases r with
      | ok u =>
        rw [add_left_right_associations_cons_ok kind s s1 t rest lbp rbp f u hadd]
        exact ih s1 k h1
      | error e =>
        rw [add_left_right_associations_cons_error kind s s1 t rest lbp rbp f e hadd]
        exact h1

theorem add_left_right_associations_mem {σ T K : Type} [DecidableEq K] (kind : T → K)
    (lbp rbp : PrecedenceLevel) (f : LeftDenot σ T) :
    ∀ (ts : List T) (s s' : ParserSpec σ T K),
      ParserSpec.add_left_right_associations kind s ts lbp rbp f = (Except.ok (), s') →
      ∀ u ∈ ts, mapContains s'.left_map (kind u) = true := by
  intro ts
  induction ts with
  | nil =>
    intro s s' h u hu
    exact absurd hu (List.not_mem_nil u)
  | cons t rest ih =>
    intro s s' h u hu
    cases hadd : s.add_left_right_assoc kind t lbp rbp f with
    | mk r s1 =>
      cases r with
      | error e =>
        rw [add_left_right_associations_cons_error kind s s1 t rest lbp rbp f e hadd] at h
        injection h with h1 h2
        exact Except.noConfusion h1
      | ok u2 =>
        rw [add_left_right_associations_cons_ok kind s s1 t rest lbp rbp f u2 hadd] at h
        rcases List.mem_cons.mp hu with hu1 | hu2
        · subst hu1
          have hc1 : mapContains s1.left_map (kind u) = true :=
            add_left_right_assoc_ok_contains kind s s1 u lbp rbp f u2 hadd
          have h2 := add_left_right_associations_preserves kind lbp rbp f rest s1 (kind u) hc1
          rw [h] at h2
          exact h2
        · exact ih s1 s' h u hu2

theorem add_left_right_associations_ok_append {σ T K : Type} [DecidableEq K] (kind : T → K)
    (lbp rbp : PrecedenceLevel) (f : LeftDenot σ T) :
    ∀ (pre rest : List T) (s s' : ParserSpec σ T K),
      ParserSpec.add_left_right_associations kind s pre lbp rbp f = (Except.ok (), s') →
      ParserSpec.add_left_right_associations kind s (pre ++ rest) lbp rbp f =
        ParserSpec.add_left_right_associations kind s' rest lbp rbp f := by
  intro pre
  induction pre with
  | nil =>
    intro rest s s' h
    injection h with h1 h2
    rw [List.nil_append, h2]
  | cons t pre2 ih =>
    intro rest s s' h
    cases hadd : s.add_left_right_assoc kind t lbp rbp f with
    | mk r s1 =>
      cases r with
      | error e =>
        rw [add_left_right_associations_cons_error kind s s1 t pre2 lbp rbp f e hadd] at h
        injection h with h1 h2
        exact Except.noConfusion h1
      | ok u =>
        rw [add_left_right_associations_cons_ok kind s s1 t pre2 lbp rbp f u hadd] at h
        rw [List.cons_append]
        rw [add_left_right_associations_cons_ok kind s s1 t (pre2 ++ rest) lbp rbp f u hadd]
        exact ih rest s1 s' h


/-- C10: bulk registration is not atomic.  For each bulk variant, when the
list is a prefix of fresh kinds followed by a token whose kind is already
registered, the call returns `TokenToRuleAlreadyDefined` for that token,
the returned spec is exactly the state after the prefix (every kind
registered before the first duplicate remains registered), and the
duplicate and everything after it contribute no new registrations. -/
theorem bulk_registration_not_atomic {σ T K : Type} [DecidableEq K] :
    (∀ (kind : T → K) (s s' : ParserSpec σ T K) (pre post : List T) (t : T)
       (bp : PrecedenceLevel) (f : NullDenot σ T),
       ParserSpec.add_null_associations kind s pre bp f = (Except.ok (), s') →
       mapContains s'.null_map (kind t) = true →
       ParserSpec.add_null_associations kind s (pre ++ t :: post) bp f =
         (Except.error (.TokenToRuleAlreadyDefined t), s') ∧
       ∀ u ∈ pre, mapContains s'.null_map (kind u) = true) ∧
    (∀ (kind : T → K) (s s' : ParserSpec σ T K) (pre post : List T) (t : T)
       (bp : PrecedenceLevel) (f : LeftDenot σ T),
       ParserSpec.add_left_associations kind s pre bp f = (Except.ok (), s') →
       mapContains s'.left_map (kind t) = true →
       ParserSpec.add_left_associations kind s (pre ++ t :: post) bp f =
         (Except.error (.TokenToRuleAlreadyDefined t), s') ∧
       ∀ u ∈ pre, mapContains s'.left_map (kind u) = true) ∧
    (∀ (kind : T → K) (s s' : ParserSpec σ T K) (pre post : List T) (t : T)
       (lbp rbp : PrecedenceLevel) (f : LeftDenot σ T),
       ParserSpec.add_left_right_associations kind s pre lbp rbp f = (Except.ok (), s') →
       mapContains s'.left_map (kind t) = true →
       ParserSpec.add_left_right_associations kind s (pre ++ t :: post) lbp rbp f =
         (Except.error (.TokenToRuleAlreadyDefined t), s') ∧
       ∀ u ∈ pre, mapContains s'.left_map (kind u) = true) := by
  refine ⟨?_, ?_, ?_⟩
  · intro kind s s' pre post t bp f h hc
    constructor
    · rw [add_null_associations_ok_append kind bp f pre (t :: post) s s' h]
      exact add_null_associations_cons_error kind s' s' t post bp f
        (.TokenToRuleAlreadyDefined t) (add_null_assoc_dup kind s' t bp f hc)
    · exact fun u hu => add_null_associations_mem kind bp f pre s s' h u hu
  · intro kind s s' pre post t bp f h hc
    constructor
    · rw [add_left_associations_ok_append kind bp f pre (t :: post) s s' h]
      exact add_left_associations_cons_error kind s' s' t post bp f
        (.TokenToRuleAlreadyDefined t) (add_left_assoc_dup kind s' t bp f hc)
    · exact fun u hu => add_left_associations_mem kind bp f pre s s' h u hu
  · intro kind s s' pre post t lbp rbp f h hc
    constructor
    · rw [add_left_right_associations_ok_append kind lbp rbp f pre (t :: post) s s' h]
      exact add_left_right_associations_cons_error kind s' s' t post lbp rbp f
        (.TokenToRuleAlreadyDefined t) (add_left_right_assoc_dup kind s' t lbp rbp f hc)
    · exact fun u hu => add_left_right_associations_mem kind lbp rbp f pre s s' h u hu

/-- C10 witness: bulk-adding `[a, +, b, *]` null rules dies at `b`
(duplicate identifier kind) with `a`'s and `+`'s registrations retained;
likewise a left-rule bulk add of `[+, *, -, /]` with `-` replaced by a
second `+`; likewise for the left-right variant. -/
theorem bulk_registration_not_atomic_witness :
    (ParserSpec.add_null_associations Tok.kind
        (ParserSpec.new : ParserSpec (LexerVec Tok) Tok TokKind)
        ([Tok.ident "a", Tok.add] ++ Tok.ident "b" :: [Tok.mul]) .Root null_node =
      (Except.error (.TokenToRuleAlreadyDefined (Tok.ident "b")),
        (ParserSpec.add_null_associations Tok.kind ParserSpec.new
          [Tok.ident "a", Tok.add] .Root null_node).2) ∧
     ∀ u ∈ [Tok.ident "a", Tok.add],
       mapContains (ParserSpec.add_null_associations Tok.kind
         (ParserSpec.new : ParserSpec (LexerVec Tok) Tok TokKind)
         [Tok.ident "a", Tok.add] .Root null_node).2.null_map (Tok.kind u) = true) ∧
    (ParserSpec.add_left_associations Tok.kind
        (ParserSpec.new : ParserSpec (LexerVec Tok) Tok TokKind)
        ([Tok.add, Tok.mul] ++ Tok.add :: [Tok.div]) .First recurse_call =
      (Except.error (.TokenToRuleAlreadyDefined Tok.add),
        (ParserSpec.add_left_associations Tok.kind ParserSpec.new
          [Tok.add, Tok.mul] .First recurse_call).2) ∧
     ∀ u ∈ [Tok.add, Tok.mul],
       mapContains (ParserSpec.add_left_associations Tok.kind
         (ParserSpec.new : ParserSpec (LexerVec Tok) Tok TokKind)
         [Tok.add, Tok.mul] .First recurse_call).2.left_map (Tok.kind u) = true) ∧
    (ParserSpec.add_left_right_associations Tok.kind
        (ParserSpec.new : ParserSpec (LexerVec Tok) Tok TokKind)
        ([Tok.pow] ++ Tok.pow :: []) .Second .First recurse_call =
      (Except.error (.TokenToRuleAlreadyDefined Tok.pow),
        (ParserSpec.add_left_right_associations Tok.kind ParserSpec.new
          [Tok.pow] .Second .First recurse_call).2) ∧
     ∀ u ∈ [Tok.pow],
       mapContains (ParserSpec.add_left_right_associations Tok.kind
         (ParserSpec.new : ParserSpec (LexerVec Tok) Tok TokKind)
         [Tok.pow] .Second .First recurse_call).2.left_map (Tok.kind u) = true) := by
  refine ⟨?_, ?_, ?_⟩
  · exact bulk_registration_not_atomic.1 Tok.kind ParserSpec.new _
      [Tok.ident "a", Tok.add] [Tok.mul] (Tok.ident "b") .Root null_node rfl rfl
  · exact bulk_registration_not_atomic.2.1 Tok.kind ParserSpec.new _
      [Tok.add, Tok.mul] [Tok.div] Tok.add .First recurse_call rfl rfl
  · exact bulk_registration_not_atomic.2.2 Tok.kind ParserSpec.new _
      [Tok.pow] [] Tok.pow .Second .First recurse_call rfl rfl


end Prattle
